import Mathlib

/-!
Shallow embedding of `CodingBeard/go-logger` (`logger.go`) for checking the
natural-language specification against the code.

Go strings are modelled as `List Char` (one entry per rune).  Every pattern
the program searches for (`'%'`, `'{'`, `'}'`, `"%{"`, `"%!(EXTRA"`) is pure
ASCII, so occurrence positions always fall on rune boundaries and the
rune-indexed model slices at exactly the same places as Go's byte-indexed
`strings.Index` / `strings.LastIndex` / slicing.  Where Go compares raw byte
lengths (`len(format) < 10`, `len(format) > 2`) the model uses the UTF-8 byte
length `goLen`.
-/

namespace GoLogger

/-- A Go string, modelled rune by rune. -/
abbrev GoStr := List Char

/-- Go's `len` on a string: the UTF-8 byte length. -/
def goLen (s : GoStr) : Nat := (s.map Char.utf8Size).sum

/-- `strings.IndexRune s c`: position of the first occurrence of `c`,
`none` standing for Go's `-1`. -/
def indexOfChar (c : Char) : GoStr → Option Nat
  | [] => none
  | d :: s => if d = c then some 0 else (indexOfChar c s).map (· + 1)

/-- `strings.Index s pat`: position of the first occurrence of the
substring `pat`, `none` standing for Go's `-1`. -/
def indexOfSub (pat : GoStr) : GoStr → Option Nat
  | [] => if pat.isEmpty then some 0 else none
  | d :: s => if pat.isPrefixOf (d :: s) then some 0 else (indexOfSub pat s).map (· + 1)

/-- Helper for `lastIndexOf`: the greatest position `≤ k` where `pat`
occurs in `s`. -/
def lastIndexFrom (pat s : GoStr) : Nat → Option Nat
  | 0 => if pat.isPrefixOf s then some 0 else none
  | k+1 => if pat.isPrefixOf (s.drop (k+1)) then some (k+1) else lastIndexFrom pat s k

/-- `strings.LastIndex s pat`: position of the last occurrence of `pat`,
`none` standing for Go's `-1`. -/
def lastIndexOf (pat s : GoStr) : Option Nat := lastIndexFrom pat s s.length

/-- The placeholder table `phfs` built by `initFormatPlaceholders`; a missing
key yields Go's zero value `""`. -/
def phfs (ph : GoStr) : GoStr :=
  if ph = "%\x7bid\x7d".toList then "%[1]d".toList
  else if ph = "%\x7btime\x7d".toList then "%[2]s".toList
  else if ph = "%\x7bmodule\x7d".toList then "%[3]s".toList
  else if ph = "%\x7bfilename\x7d".toList then "%[4]s".toList
  else if ph = "%\x7bfile\x7d".toList then "%[4]s".toList
  else if ph = "%\x7bline\x7d".toList then "%[5]d".toList
  else if ph = "%\x7blevel\x7d".toList then "%[6]s".toList
  else if ph = "%\x7blvl\x7d".toList then "%.3[6]s".toList
  else if ph = "%\x7bmessage\x7d".toList then "%[7]s".toList
  else if ph = "%\x7bcategory\x7d".toList then "%[8]s".toList
  else []

/-- `ph2verb`: translate one `%{...}` run into a printf verb plus the
optional `:`-argument. -/
def ph2verb (ph : GoStr) : GoStr × GoStr :=
  if ph.length < 4 then ([], [])
  else if ph.getD 0 ' ' = '%' ∧ ph.getD 1 ' ' = '{' ∧ ph.getD (ph.length - 1) ' ' = '}' then
    match indexOfChar ':' ph with
    | none => (phfs ph, [])
    | some idx =>
        (phfs (ph.take idx ++ ['}']), (ph.drop (idx + 1)).take (ph.length - 1 - (idx + 1)))
  else ([], [])

/-- The process-wide mutable globals `defFmt` and `defTimeFmt`. -/
structure GoDefaults where
  defFmt : GoStr
  defTimeFmt : GoStr
  deriving DecidableEq

/-- The initial values of `defFmt` and `defTimeFmt`. -/
def defaults0 : GoDefaults :=
  { defFmt := "#%[1]d %[2]s %[4]s:%[5]d ▶ %.3[6]s %[7]s".toList
    defTimeFmt := "2006-01-02 15:04:05".toList }

/--
The body of `parseFormat`'s scanning loop.  `idx` is the Go variable `idx`
(`none` for `-1`).  The loop is not total in Go (a trailing `"%"` or `"%x"`
once reached spins forever recomputing `idx = 0`), so the model carries fuel;
`none` marks exactly those diverging runs.  Every productive iteration
consumes at least one rune of `format`, so fuel `format.length + 1` is enough
for all terminating runs.
-/
def parseLoop : Nat → Option Nat → GoStr → GoStr → GoStr → Option (GoStr × GoStr)
  | _, none, format, msgfmt, timefmt => some (msgfmt ++ format, timefmt)
  | 0, some _, _, _, _ => none
  | fuel+1, some idx, format0, msgfmt0, timefmt =>
    -- msgfmt += format[:idx]; format = format[idx:]
    let msgfmt := msgfmt0 ++ format0.take idx
    let format := format0.drop idx
    if goLen format > 2 then
      if format.getD 1 ' ' = '{' then
        match indexOfChar '}' format with
        | some jdx =>
          match indexOfSub "%\x7b".toList (format.drop 1) with
          | some idx2 =>
            if idx2 < jdx then
              -- incorrect verb, but a new verb may start: emit "%%", advance 1
              parseLoop fuel (some idx2) (format.drop 1) (msgfmt ++ "%%".toList) timefmt
            else
              let va := ph2verb (format.take (jdx + 1))
              let timefmt' := if va.1 = "%[2]s".toList ∧ va.2 ≠ [] then va.2 else timefmt
              let format' := format.drop (jdx + 1)
              parseLoop fuel (indexOfChar '%' format') format' (msgfmt ++ va.1) timefmt'
          | none =>
            let va := ph2verb (format.take (jdx + 1))
            let timefmt' := if va.1 = "%[2]s".toList ∧ va.2 ≠ [] then va.2 else timefmt
            let format' := format.drop (jdx + 1)
            parseLoop fuel (indexOfChar '%' format') format' (msgfmt ++ va.1) timefmt'
        | none =>
          let format' := format.drop 1
          parseLoop fuel (indexOfChar '%' format') format' msgfmt timefmt
      else
        let format' := format.drop 1
        parseLoop fuel (indexOfChar '%' format') format' (msgfmt ++ "%%".toList) timefmt
    else
      parseLoop fuel (indexOfChar '%' format) format msgfmt timefmt

/-- `parseFormat`, carrying the current global defaults explicitly.
`none` marks the inputs on which the Go loop never terminates. -/
def parseFormat (ds : GoDefaults) (format : GoStr) : Option (GoStr × GoStr) :=
  if goLen format < 10 then some (ds.defFmt, ds.defTimeFmt)
  else parseLoop (format.length + 1) (indexOfChar '%' format) format [] ds.defTimeFmt

/-- `SetDefaultFormat`: recompiles and replaces both globals. -/
def setDefaultFormat (ds : GoDefaults) (format : GoStr) : Option GoDefaults :=
  (parseFormat ds format).map fun mt => { defFmt := mt.1, defTimeFmt := mt.2 }

/-! ## Go value rendering (the fragment of `fmt` the logger exercises) -/

/-- Decimal digit characters. -/
def goDigitChar (d : Nat) : Char := "0123456789".toList.getD d '0'

/-- Decimal digits of `n`, most significant first; fuel-based so that the
kernel can evaluate it (`n + 1` fuel always suffices). -/
def goNatReprAux : Nat → Nat → GoStr
  | 0, _ => []
  | fuel+1, n =>
    if n < 10 then [goDigitChar n]
    else goNatReprAux fuel (n / 10) ++ [goDigitChar (n % 10)]

/-- Go's `%v`/`%d` rendering of an unsigned integer. -/
def goNatRepr (n : Nat) : GoStr := goNatReprAux (n + 1) n

/-- Go's `%v`/`%d` rendering of a signed integer. -/
def goIntRepr (i : Int) : GoStr :=
  if i < 0 then '-' :: goNatRepr i.natAbs else goNatRepr i.natAbs

/-- The dynamic values `Info.Output` passes to `fmt.Sprintf`: a `uint64`
(the id), an `int` (the line), and strings for everything else. -/
inductive GoVal where
  | u64 (n : Nat)
  | int (n : Int)
  | str (s : GoStr)
  deriving DecidableEq

/-- `reflect.TypeOf(arg).String()`, as printed inside `%!(EXTRA ...)`. -/
def GoVal.typeName : GoVal → GoStr
  | .u64 _ => "uint64".toList
  | .int _ => "int".toList
  | .str _ => "string".toList

/-- The `%v` rendering of a value, as printed inside `%!(EXTRA ...)`. -/
def GoVal.plainV : GoVal → GoStr
  | .u64 n => goNatRepr n
  | .int n => goIntRepr n
  | .str s => s

/-- `type=value` entries joined by `", "`. -/
def joinArgsV : List GoVal → GoStr
  | [] => []
  | [a] => a.typeName ++ '=' :: a.plainV
  | a :: b :: rest => a.typeName ++ '=' :: a.plainV ++ ", ".toList ++ joinArgsV (b :: rest)

/-- The trailing diagnostic `fmt` appends for unused arguments. -/
def extraSection (args : List GoVal) (argNum : Nat) : GoStr :=
  "%!(EXTRA ".toList ++ joinArgsV (args.drop argNum) ++ [')']

/-- End of `doPrintf`: append the `%!(EXTRA ...)` diagnostic unless the
format accessed its arguments out of order (`reordered`). -/
def sprintfFinish (acc : GoStr) (args : List GoVal) (argNum : Nat) (reordered : Bool) : GoStr :=
  if reordered = false ∧ argNum < args.length then acc ++ extraSection args argNum else acc

/-- Consume a run of decimal digits, returning its value and the rest. -/
def parseDigits : GoStr → Nat → Nat × GoStr
  | [], acc => (acc, [])
  | c :: s, acc =>
    if c.isDigit then parseDigits s (acc * 10 + (c.toNat - 48)) else (acc, c :: s)

/-- Apply one printf verb to one argument.  The verbs a compiled template
can contain are `d` and `s` (optionally with a precision, emitted only as
`%.3[6]s` for `%{lvl}`); mismatches render Go's `%!verb(type=value)`
diagnostics. -/
def applyVerb (v : Char) (prec : Option Nat) (arg : GoVal) : GoStr :=
  match v, arg with
  | 'd', .u64 n => goNatRepr n
  | 'd', .int n => goIntRepr n
  | 'd', .str s => "%!d(string=".toList ++ s ++ [')']
  | 's', .str s => (match prec with | some p => s.take p | none => s)
  | 's', .u64 n => "%!s(uint64=".toList ++ goNatRepr n ++ [')']
  | 's', .int n => "%!s(int=".toList ++ goIntRepr n ++ [')']
  | v, a => '%' :: '!' :: v :: '(' :: (a.typeName ++ '=' :: a.plainV) ++ [')']

/--
The scanning loop of `fmt.Sprintf` (`doPrintf`), restricted to the verb
shapes the logger's compiled templates produce: literal text, `%%`,
`%[n]d` / `%[n]s`, and a `.digits` precision before the index (as in
`%.3[6]s`).  An explicit `[n]` index sets `argNum := n - 1` and marks the
call `reordered`, which suppresses the final `%!(EXTRA ...)` diagnostic; a
`%` with no verb at the end renders `%!(NOVERB)`; a malformed index renders
`%!(BADINDEX)`.  Flags and widths are not modelled (no compiled template
contains them).  Fuel `format.length + 1` always suffices since every
iteration consumes at least the `%` it found.
-/
def goSprintfAux : Nat → GoStr → List GoVal → Nat → Bool → GoStr → GoStr
  | 0, _, _, _, _, acc => acc
  | fuel+1, format, args, argNum, reordered, acc =>
    match indexOfChar '%' format with
    | none => sprintfFinish (acc ++ format) args argNum reordered
    | some i =>
      let acc1 := acc ++ format.take i
      match format.drop (i + 1) with
      | [] => sprintfFinish (acc1 ++ "%!(NOVERB)".toList) args argNum reordered
      | c :: cs =>
        if c = '%' then goSprintfAux fuel cs args argNum reordered (acc1 ++ ['%'])
        else
          let pr : Option Nat × GoStr :=
            if c = '.' then (some (parseDigits cs 0).1, (parseDigits cs 0).2)
            else (none, c :: cs)
          match pr.2 with
          | '[' :: ds =>
            match parseDigits ds 0 with
            | (nv, ']' :: rest2) =>
              if (ds.headD ' ').isDigit ∧ 1 ≤ nv then
                match rest2 with
                | [] => sprintfFinish (acc1 ++ "%!(NOVERB)".toList) args (nv - 1) true
                | v :: vs =>
                  if h : nv - 1 < args.length then
                    goSprintfAux fuel vs args nv true (acc1 ++ applyVerb v pr.1 args[nv - 1])
                  else
                    goSprintfAux fuel vs args (nv - 1) true
                      (acc1 ++ '%' :: '!' :: v :: "(MISSING)".toList)
              else goSprintfAux fuel ds args argNum reordered (acc1 ++ "%!(BADINDEX)".toList)
            | (_, rest2) =>
              goSprintfAux fuel rest2 args argNum reordered (acc1 ++ "%!(BADINDEX)".toList)
          | [] => sprintfFinish (acc1 ++ "%!(NOVERB)".toList) args argNum reordered
          | v :: vs =>
            if h : argNum < args.length then
              goSprintfAux fuel vs args (argNum + 1) reordered (acc1 ++ applyVerb v pr.1 args[argNum])
            else
              goSprintfAux fuel vs args argNum reordered (acc1 ++ '%' :: '!' :: v :: "(MISSING)".toList)

/-- `fmt.Sprintf` with the 8 logger arguments. -/
def goSprintf (format : GoStr) (args : List GoVal) : GoStr :=
  goSprintfAux (format.length + 1) format args 0 false []

/-! ## `Info`, `logLevelString`, `Info.Output` -/

/-- The `Info` record built by `log_internal`. -/
structure Info where
  Id : Nat
  Time : GoStr
  Module : GoStr
  Level : Int
  Line : Int
  Filename : GoStr
  Message : GoStr
  Category : GoStr
  deriving DecidableEq

/-- The array literal inside `logLevelString`. -/
def logLevels : List GoStr :=
  ["CRITICAL".toList, "ERROR".toList, "WARNING".toList,
   "NOTICE".toList, "INFO".toList, "DEBUG".toList]

/-- `Info.logLevelString`: index `Level - 1` into the 6-entry array;
`none` models the out-of-range panic. -/
def logLevelString (lvl : Int) : Option GoStr :=
  if lvl < 1 then none else logLevels.get? (lvl - 1).toNat

/-- The marker `Info.Output` searches for with `strings.LastIndex`. -/
def extraMarker : GoStr := "%!(EXTRA".toList

/-- The 8 arguments `Info.Output` hands to `fmt.Sprintf`, in source order:
`Id, Time, Module, Filename, Line, logLevelString(), Message, Category`. -/
def Info.outputArgs (r : Info) (lvlStr : GoStr) : List GoVal :=
  [GoVal.u64 r.Id, GoVal.str r.Time, GoVal.str r.Module, GoVal.str r.Filename,
   GoVal.int r.Line, GoVal.str lvlStr, GoVal.str r.Message, GoVal.str r.Category]

/-- `Info.Output`: format all 8 fields, then cut at the last occurrence of
`"%!(EXTRA"`.  `none` models the panic of `logLevelString` on an invalid
severity. -/
def Info.Output (r : Info) (format : GoStr) : Option GoStr :=
  (logLevelString r.Level).map fun lvlStr =>
    let msg := goSprintf format (r.outputArgs lvlStr)
    match lastIndexOf extraMarker msg with
    | some i => msg.take i
    | none => msg

/-! ## Colors, `Worker`, `Worker.Log` -/

/-- The `colors` map built by `initColors` (`\x1b[<code>m`); a missing key
yields Go's zero value `""`. -/
def colors (lvl : Int) : GoStr :=
  if lvl = 1 then "\x1b[35m".toList
  else if lvl = 2 then "\x1b[31m".toList
  else if lvl = 3 then "\x1b[33m".toList
  else if lvl = 4 then "\x1b[32m".toList
  else if lvl = 6 then "\x1b[36m".toList
  else if lvl = 5 then "\x1b[37m".toList
  else []

/-- The `Worker` fields the write path reads.  `lock` and `sink` are
identities (allocation numbers); `sinkErr` is the error the sink's
`Minion.Output` would return.  `Worker.Log` never assigns any of these
fields, so the model's `log` is a pure reader. -/
structure Worker where
  Color : Int
  format : GoStr
  timeFormat : GoStr
  level : Int
  lock : Nat
  sink : Nat
  sinkErr : Option GoStr
  deriving DecidableEq

/-- What one `Worker.Log` call returns and writes:  `bytes` is `buf.Len()`
(0 when filtered), `written` the string handed to the sink (`none` when the
severity gate filters the record), `err` the propagated sink error. -/
structure LogOutcome where
  bytes : Nat
  written : Option GoStr
  err : Option GoStr
  deriving DecidableEq

/-- `Worker.Log` (the `calldepth` argument only relocates the caller
attribution inside `log.Logger` and is irrelevant to the modelled
behaviour).  Outer `none` models the `logLevelString` panic, reachable only
when the record is admitted. -/
def Worker.log (w : Worker) (level : Int) (info : Info) : Option LogOutcome :=
  if w.level < level then some { bytes := 0, written := none, err := none }
  else match info.Output w.format with
    | none => none
    | some output =>
      if w.Color ≠ 0 then
        let buf := colors level ++ output ++ "\x1b[0m".toList
        some { bytes := goLen buf, written := some buf, err := w.sinkErr }
      else
        some { bytes := goLen output, written := some output, err := w.sinkErr }

/-! ## `New`, `Update`, the `Logger` facade -/

/-- One variadic argument to `New`/`Update`, classified by its dynamic Go
type exactly as the `switch arg.(type)` does: `string`, `int`, any
`io.Writer` (an identity), `LogLevel`, or anything else. -/
inductive GoArg where
  | str (s : GoStr)
  | int (n : Int)
  | writer (w : Nat)
  | level (l : Int)
  | unknown
  deriving DecidableEq

/-- The local variables of `New` after the argument loop. -/
structure NewCfg where
  module : GoStr
  color : Int
  out : Nat
  level : Int
  deriving DecidableEq

/-- The identity of `os.Stderr`. -/
def stderrSink : Nat := 0

/-- One step of `New`'s argument loop: each recognised type overwrites its
variable; an unrecognised type panics (`none`). -/
def newStep (c : NewCfg) : GoArg → Option NewCfg
  | .str s => some { c with module := s }
  | .int n => some { c with color := n }
  | .writer w => some { c with out := w }
  | .level l => some { c with level := l }
  | .unknown => none

/-- `New`'s argument resolution, from the defaults
`("DEFAULT", 1, os.Stderr, InfoLevel)`. -/
def resolveNewArgs (args : List GoArg) : Option NewCfg :=
  args.foldlM newStep { module := "DEFAULT".toList, color := 1, out := stderrSink, level := 5 }

/-- One step of `Update`'s argument loop: same as `New` but with no
`string` case, so a `string` argument panics. -/
def updateStep (c : NewCfg) : GoArg → Option NewCfg
  | .str _ => none
  | .int n => some { c with color := n }
  | .writer w => some { c with out := w }
  | .level l => some { c with level := l }
  | .unknown => none

/-- `Update`'s argument resolution (its `module` field is unused). -/
def resolveUpdateArgs (args : List GoArg) : Option NewCfg :=
  args.foldlM updateStep { module := "DEFAULT".toList, color := 1, out := stderrSink, level := 5 }

/-- The `Logger` struct.  `writeLock` is the exported `WriteLock` field;
the worker's own lock sits inside `worker`. -/
structure Logger where
  Module : GoStr
  worker : Worker
  posOverride : Int
  writeLock : Nat
  deriving DecidableEq

/-- `New`.  `freshLock` is the identity of the `&sync.Mutex{}` it
allocates; `ds` the current global defaults (`NewWorker` copies `defFmt`
and `defTimeFmt`).  The struct literal omits `posOverride`, so it gets Go's
zero value `0`. -/
def goNew (ds : GoDefaults) (args : List GoArg) (freshLock : Nat) : Option Logger :=
  (resolveNewArgs args).map fun c =>
    { Module := c.module
      worker :=
        { Color := c.color, format := ds.defFmt, timeFormat := ds.defTimeFmt,
          level := c.level, lock := freshLock, sink := c.out, sinkErr := none }
      posOverride := 0
      writeLock := freshLock }

/-- `Update`: builds a brand-new worker around a brand-new lock
(`freshLock`) and replaces `l.worker`, leaving `Module`, `posOverride` and
`WriteLock` untouched. -/
def goUpdate (ds : GoDefaults) (l : Logger) (args : List GoArg) (freshLock : Nat) : Option Logger :=
  (resolveUpdateArgs args).map fun c =>
    { l with worker :=
        { Color := c.color, format := ds.defFmt, timeFormat := ds.defTimeFmt,
          level := c.level, lock := freshLock, sink := c.out, sinkErr := none } }

/-- `SetPosOverride`. -/
def setPosOverride (l : Logger) (pos : Int) : Logger := { l with posOverride := pos }

/-- The depth-resolution prologue of `log_internal`: any `posOverride`
other than `-1` replaces the passed depth for this one call and is reset
to `-1`. -/
def logInternalPos (l : Logger) (pos : Int) : Int × Logger :=
  if l.posOverride ≠ -1 then (l.posOverride, { l with posOverride := -1 })
  else (pos, l)

/-- The fixed depth `Logger.Log` passes to `log_internal`. -/
def defaultCallDepth : Int := 2

/-! ## Characterisation of `lastIndexOf` (Go's `strings.LastIndex`) -/

theorem lastIndexFrom_some (pat s : GoStr) :
    ∀ k i : Nat, lastIndexFrom pat s k = some i →
      pat <+: s.drop i ∧ i ≤ k ∧ ∀ j, j ≤ k → pat <+: s.drop j → j ≤ i := by
  intro k
  induction k with
  | zero =>
    intro i h
    by_cases hp : pat.isPrefixOf s
    · simp only [lastIndexFrom, hp, if_pos] at h
      cases h
      refine ⟨by simpa using List.isPrefixOf_iff_prefix.mp hp, le_refl 0, ?_⟩
      intro j hj _
      exact hj
    · simp only [lastIndexFrom, hp, Bool.false_eq_true, if_false] at h
      exact Option.noConfusion h
  | succ k ih =>
    intro i h
    by_cases hp : pat.isPrefixOf (s.drop (k + 1))
    · simp only [lastIndexFrom, hp, if_pos] at h
      cases h
      refine ⟨List.isPrefixOf_iff_prefix.mp hp, le_refl _, ?_⟩
      intro j hj _
      exact hj
    · simp only [lastIndexFrom, hp, Bool.false_eq_true, if_false] at h
      obtain ⟨h1, h2, h3⟩ := ih i h
      refine ⟨h1, Nat.le_succ_of_le h2, ?_⟩
      intro j hj hmatch
      rcases Nat.lt_or_ge j (k + 1) with hlt | hge
      · exact h3 j (Nat.lt_succ_iff.mp hlt) hmatch
      · exfalso
        have : j = k + 1 := Nat.le_antisymm hj hge
        subst this
        exact hp (List.isPrefixOf_iff_prefix.mpr hmatch)

theorem lastIndexFrom_none (pat s : GoStr) :
    ∀ k : Nat, lastIndexFrom pat s k = none → ∀ j, j ≤ k → ¬ pat <+: s.drop j := by
  intro k
  induction k with
  | zero =>
    intro h j hj hmatch
    interval_cases j
    by_cases hp : pat.isPrefixOf s
    · simp only [lastIndexFrom, hp, if_pos] at h
      exact Option.noConfusion h
    · exact hp (List.isPrefixOf_iff_prefix.mpr (by simpa using hmatch))
  | succ k ih =>
    intro h j hj hmatch
    by_cases hp : pat.isPrefixOf (s.drop (k + 1))
    · simp only [lastIndexFrom, hp, if_pos] at h
      exact Option.noConfusion h
    · simp only [lastIndexFrom, hp, Bool.false_eq_true, if_false] at h
      rcases Nat.lt_or_ge j (k + 1) with hlt | hge
      · exact ih h j (Nat.lt_succ_iff.mp hlt) hmatch
      · have : j = k + 1 := Nat.le_antisymm hj hge
        subst this
        exact hp (List.isPrefixOf_iff_prefix.mpr hmatch)

/-- A nonempty pattern can only occur at positions up to `s.length`. -/
theorem occurrence_le_length {pat s : GoStr} (hne : pat ≠ []) :
    ∀ j, pat <+: s.drop j → j ≤ s.length := by
  intro j hj
  by_contra hgt
  rw [List.drop_eq_nil_of_le (Nat.le_of_not_lt fun h => hgt (Nat.le_of_lt h))] at hj
  exact hne (List.prefix_nil.mp hj)

/-- `strings.LastIndex` returns an occurrence and the greatest one. -/
theorem lastIndexOf_some {pat s : GoStr} {i : Nat} (hne : pat ≠ [])
    (h : lastIndexOf pat s = some i) :
    pat <+: s.drop i ∧ ∀ j, pat <+: s.drop j → j ≤ i := by
  obtain ⟨h1, _, h3⟩ := lastIndexFrom_some pat s s.length i h
  exact ⟨h1, fun j hj => h3 j (occurrence_le_length hne j hj) hj⟩

/-- `strings.LastIndex` returns `-1` only when the pattern never occurs. -/
theorem lastIndexOf_none {pat s : GoStr} (hne : pat ≠ [])
    (h : lastIndexOf pat s = none) : ∀ j, ¬ pat <+: s.drop j := by
  intro j hj
  exact lastIndexFrom_none pat s s.length h j
    (occurrence_le_length hne j hj) hj

/-! ## C2 — the renderer's overflow trimming -/

/-- The string `fmt.Sprintf` produces inside `Info.Output`, before the
`"%!(EXTRA"` trim. -/
def fullMsg (r : Info) (format lvlStr : GoStr) : GoStr :=
  goSprintf format (r.outputArgs lvlStr)

/-- What `Info.Output` actually guarantees about the trim: the returned
string is the formatted message cut at the LAST occurrence of
`"%!(EXTRA"` (or returned unchanged when the marker never occurs). -/
def OutputTrimSpec (r : Info) (format out : GoStr) : Prop :=
  ∃ lvlStr, logLevelString r.Level = some lvlStr ∧
    ((∃ i, extraMarker <+: (fullMsg r format lvlStr).drop i) →
      ∃ i, extraMarker <+: (fullMsg r format lvlStr).drop i ∧
        (∀ j, extraMarker <+: (fullMsg r format lvlStr).drop j → j ≤ i) ∧
        out = (fullMsg r format lvlStr).take i) ∧
    ((¬ ∃ i, extraMarker <+: (fullMsg r format lvlStr).drop i) →
      out = fullMsg r format lvlStr)

/-- C2 (amended): for every format string and record, `Info.Output` formats
all 8 fields and, whenever the result contains `"%!(EXTRA"`, returns the
prefix up to the LAST occurrence of the marker (the code uses
`strings.LastIndex`, not the first occurrence); a marker-free string is
returned unchanged. -/
theorem output_trims_at_last_marker (r : Info) (format out : GoStr)
    (h : r.Output format = some out) : OutputTrimSpec r format out := by
  have hne : extraMarker ≠ [] := by decide
  unfold Info.Output at h
  cases hl : logLevelString r.Level with
  | none => rw [hl] at h; cases h
  | some lvlStr =>
    rw [hl] at h
    simp only [Option.map_some', Option.some.injEq] at h
    refine ⟨lvlStr, hl, ?_, ?_⟩
    · intro hex
      cases hL : lastIndexOf extraMarker (fullMsg r format lvlStr) with
      | none =>
        exfalso
        obtain ⟨i, hi⟩ := hex
        exact lastIndexOf_none hne hL i hi
      | some i =>
        obtain ⟨h1, h2⟩ := lastIndexOf_some hne hL
        refine ⟨i, h1, h2, ?_⟩
        rw [← h]
        simp only [fullMsg, Info.outputArgs] at hL ⊢
        rw [hL]
    · intro hno
      cases hL : lastIndexOf extraMarker (fullMsg r format lvlStr) with
      | none =>
        rw [← h]
        simp only [fullMsg, Info.outputArgs] at hL ⊢
        rw [hL]
      | some i =>
        exfalso
        exact hno ⟨i, (lastIndexOf_some hne hL).1⟩

/-- Record used for the C2 counterexample and witness: its `Message` field
itself contains the marker substring. -/
def c2rec : Info :=
  { Id := 1, Time := "t".toList, Module := "m".toList, Level := 1, Line := 2,
    Filename := "f".toList, Message := "%!(EXTRA".toList, Category := "c".toList }

/-- The compiled template used for C2: ten literal characters, so the
formatter appends its extra-arguments diagnostic. -/
def c2fmt : GoStr := "0123456789".toList

/-- The untrimmed formatter output for the C2 record. -/
def c2msg : GoStr := goSprintf c2fmt (c2rec.outputArgs "CRITICAL".toList)

/-- C2 (counterexample): on the compiled template `"0123456789"` and a
record whose `Message` contains `"%!(EXTRA"`, the first occurrence of the
marker is at position 10, but `Info.Output` does NOT return the prefix up
to it — `strings.LastIndex` cuts at the later occurrence inside the
diagnostic, letting diagnostic text through. -/
theorem output_first_marker_counterexample :
    parseFormat defaults0 c2fmt = some (c2fmt, defaults0.defTimeFmt) ∧
    logLevelString c2rec.Level = some "CRITICAL".toList ∧
    extraMarker <+: c2msg.drop 10 ∧
    (∀ j, j < 10 → ¬ extraMarker <+: c2msg.drop j) ∧
    c2rec.Output c2fmt ≠ some (c2msg.take 10) := by
  refine ⟨by decide, by decide, by decide, by decide, by decide⟩

/-- C2 witness: the amended theorem applied to the concrete record and
template above. -/
theorem output_trims_at_last_marker_witness :
    OutputTrimSpec c2rec c2fmt
      ("0123456789%!(EXTRA uint64=1, string=t, string=m, string=f, int=2, string=CRITICAL, string=".toList) :=
  output_trims_at_last_marker c2rec c2fmt _ (by decide)

/-! ## Position lemmas for the scanning functions -/

theorem goLen_append (s t : GoStr) : goLen (s ++ t) = goLen s + goLen t := by
  simp [goLen, List.sum_append]

theorem indexOfChar_append {c : Char} {l1 : GoStr} (l2 : GoStr) (h : c ∉ l1) :
    indexOfChar c (l1 ++ l2) = (indexOfChar c l2).map (fun i => l1.length + i) := by
  induction l1 with
  | nil => simp [Option.map_id_fun]
  | cons d l1 ih =>
    have hdc : d ≠ c := fun he => h (he ▸ List.mem_cons_self d l1)
    have h1 : c ∉ l1 := fun hm => h (List.mem_cons_of_mem d hm)
    simp only [List.cons_append, indexOfChar, hdc, if_false, List.append_eq, ih h1,
      Option.map_map]
    cases indexOfChar c l2 with
    | none => simp
    | some v =>
      simp only [Option.map_some', Function.comp_apply, Option.some.injEq, List.length_cons]
      omega

theorem indexOfSub_percent_append (pt : GoStr) {l1 : GoStr} (l2 : GoStr) (h : '%' ∉ l1) :
    indexOfSub ('%' :: pt) (l1 ++ l2) =
      (indexOfSub ('%' :: pt) l2).map (fun i => l1.length + i) := by
  induction l1 with
  | nil => simp [Option.map_id_fun]
  | cons d l1 ih =>
    have hdc : d ≠ '%' := fun he => h (he ▸ List.mem_cons_self d l1)
    have h1 : '%' ∉ l1 := fun hm => h (List.mem_cons_of_mem d hm)
    have hnp : (('%' :: pt).isPrefixOf (d :: (l1 ++ l2))) = false := by
      simp only [List.isPrefixOf, Bool.and_eq_false_iff]
      left
      simp only [beq_eq_false_iff_ne, Ne]
      exact fun he => hdc he.symm
    simp only [List.cons_append, indexOfSub, hnp, Bool.false_eq_true, if_false,
      List.append_eq, ih h1, Option.map_map]
    cases indexOfSub ('%' :: pt) l2 with
    | none => simp
    | some v =>
      simp only [Option.map_some', Function.comp_apply, Option.some.injEq, List.length_cons]
      omega

/-! ## Percent-freeness of rendered values -/

theorem goDigitChar_ne_percent (d : Nat) : goDigitChar d ≠ '%' := by
  unfold goDigitChar
  by_cases h : d < 10
  · interval_cases d <;> decide
  · rw [List.getD_eq_default _ _ (by simpa using Nat.le_of_not_lt h)]
    decide

theorem percent_not_mem_goNatReprAux (fuel : Nat) :
    ∀ n, '%' ∉ goNatReprAux fuel n := by
  induction fuel with
  | zero => intro n; simp [goNatReprAux]
  | succ fuel ih =>
    intro n
    by_cases h : n < 10
    · simp only [goNatReprAux, h, if_pos, List.mem_singleton]
      exact fun he => goDigitChar_ne_percent n he.symm
    · simp only [goNatReprAux, h, if_false, List.mem_append, List.mem_singleton]
      rintro (hm | he)
      · exact ih (n / 10) hm
      · exact goDigitChar_ne_percent (n % 10) he.symm

theorem percent_not_mem_goNatRepr (n : Nat) : '%' ∉ goNatRepr n :=
  percent_not_mem_goNatReprAux (n + 1) n

theorem percent_not_mem_goIntRepr (i : Int) : '%' ∉ goIntRepr i := by
  unfold goIntRepr
  by_cases h : i < 0
  · simp only [h, if_pos, List.mem_cons]
    rintro (he | hm)
    · exact absurd he (by decide)
    · exact percent_not_mem_goNatRepr i.natAbs hm
  · simp only [h, if_false]
    exact percent_not_mem_goNatRepr i.natAbs

theorem percent_not_mem_typeName (a : GoVal) : '%' ∉ a.typeName := by
  cases a <;> simp [GoVal.typeName]

theorem percent_not_mem_joinArgsV :
    ∀ args : List GoVal, (∀ a ∈ args, '%' ∉ a.plainV) → '%' ∉ joinArgsV args := by
  intro args
  induction args with
  | nil => intro _; simp [joinArgsV]
  | cons a rest ih =>
    intro h
    cases rest with
    | nil =>
      simp only [joinArgsV, List.mem_append, List.mem_cons]
      rintro (hm | he | hm)
      · exact percent_not_mem_typeName a hm
      · exact absurd he (by decide)
      · exact h a (List.mem_cons_self a []) hm
    | cons b rest' =>
      simp only [joinArgsV, List.append_assoc, List.cons_append, List.mem_append,
        List.mem_cons]
      rintro (hm | he | hm | hm | hm)
      · exact percent_not_mem_typeName a hm
      · exact absurd he (by decide)
      · exact h a (List.mem_cons_self a _) hm
      · exact absurd hm (by decide)
      · exact ih (fun x hx => h x (List.mem_cons_of_mem a hx)) hm

/-- For a valid severity the name lookup succeeds and the name is one of
the six all-caps strings (in particular percent-free). -/
theorem logLevelString_valid {lvl : Int} (h1 : 1 ≤ lvl) (h6 : lvl ≤ 6) :
    ∃ s, logLevelString lvl = some s ∧ '%' ∉ s := by
  interval_cases lvl <;> exact ⟨_, rfl, by decide⟩

/-! ## `goSprintf` on verb-free templates -/

/-- A template with no `%` at all formats to itself followed by the
extra-arguments diagnostic (when arguments were supplied). -/
theorem goSprintf_no_verbs (format : GoStr) (args : List GoVal)
    (h : indexOfChar '%' format = none) (hargs : 0 < args.length) :
    goSprintf format args = format ++ extraSection args 0 := by
  simp [goSprintf, goSprintfAux, h, sprintfFinish, hargs]

/-- In `P ++ '%' :: rest` with `%`-free `P` and `rest`, any occurrence of a
pattern starting with `'%'` sits exactly at position `P.length`. -/
theorem occurrence_unique (pt : GoStr) {P rest : GoStr} (hP : '%' ∉ P) (hrest : '%' ∉ rest) :
    ∀ j, ('%' :: pt) <+: (P ++ '%' :: rest).drop j → j = P.length := by
  intro j hj
  obtain ⟨t, ht⟩ := hj
  have hget : (P ++ '%' :: rest).get? j = some '%' := by
    have h0 := List.get?_drop (P ++ '%' :: rest) j 0
    rw [← ht] at h0
    simpa using h0.symm
  rcases Nat.lt_trichotomy j P.length with hlt | heq | hgt
  · exfalso
    rw [List.get?_append hlt] at hget
    exact hP (List.get?_mem hget)
  · exact heq
  · exfalso
    rw [List.get?_append_right (Nat.le_of_lt hgt)] at hget
    have hpos : 0 < j - P.length := Nat.sub_pos_of_lt hgt
    cases hd : j - P.length with
    | zero => omega
    | succ m =>
      rw [hd] at hget
      simp only [List.get?_cons_succ] at hget
      exact hrest (List.get?_mem hget)

/-- Rewriting `Info.Output` once the severity name is known. -/
theorem Output_eq (r : Info) (format lvlStr : GoStr)
    (h : logLevelString r.Level = some lvlStr) :
    r.Output format = some (match lastIndexOf extraMarker (fullMsg r format lvlStr) with
      | some i => (fullMsg r format lvlStr).take i
      | none => fullMsg r format lvlStr) := by
  unfold Info.Output fullMsg
  rw [h]
  rfl

/-! ## C3 — the unterminated-placeholder edge case -/

/-- C3 (amended): `"prefix %{bad message"` compiles to the literal template
`"prefix {bad message"` — only the `'%'` of the dangling placeholder is
consumed; the `'{'` and the whole remainder pass through as literal text —
and rendering it with any valid record whose fields are `%`-free yields
exactly `"prefix {bad message"` (the appended extra-arguments diagnostic is
trimmed away again). -/
theorem unterminated_placeholder_amended (r : Info)
    (h1 : 1 ≤ r.Level) (h6 : r.Level ≤ 6)
    (ht : '%' ∉ r.Time) (hm : '%' ∉ r.Module) (hf : '%' ∉ r.Filename)
    (hmsg : '%' ∉ r.Message) (hc : '%' ∉ r.Category) :
    parseFormat defaults0 "prefix %\x7bbad message".toList =
      some ("prefix \x7bbad message".toList, defaults0.defTimeFmt) ∧
    r.Output "prefix \x7bbad message".toList = some "prefix \x7bbad message".toList := by
  obtain ⟨lvlStr, hls, hlp⟩ := logLevelString_valid h1 h6
  refine ⟨by decide, ?_⟩
  have hargsmem : ∀ a ∈ r.outputArgs lvlStr, '%' ∉ a.plainV := by
    intro a ha
    simp only [Info.outputArgs, List.mem_cons, List.not_mem_nil, or_false] at ha
    rcases ha with h | h | h | h | h | h | h | h <;> subst h <;> simp only [GoVal.plainV]
    · exact percent_not_mem_goNatRepr _
    · exact ht
    · exact hm
    · exact hf
    · exact percent_not_mem_goIntRepr _
    · exact hlp
    · exact hmsg
    · exact hc
  have hjoin : '%' ∉ joinArgsV (r.outputArgs lvlStr) :=
    percent_not_mem_joinArgsV _ hargsmem
  have hrest : '%' ∉ ("!(EXTRA ".toList ++ (joinArgsV (r.outputArgs lvlStr) ++ [')'])) := by
    simp only [List.mem_append, List.mem_singleton]
    rintro (hx | hx | hx)
    · revert hx; decide
    · exact hjoin hx
    · revert hx; decide
  have hPfree : '%' ∉ "prefix \x7bbad message".toList := by decide
  have hfull : fullMsg r "prefix \x7bbad message".toList lvlStr =
      "prefix \x7bbad message".toList ++
        '%' :: ("!(EXTRA ".toList ++ (joinArgsV (r.outputArgs lvlStr) ++ [')'])) := by
    unfold fullMsg
    rw [goSprintf_no_verbs _ _ (by decide) (by simp [Info.outputArgs])]
    rfl
  have hocc : extraMarker <+:
      ("prefix \x7bbad message".toList ++
        '%' :: ("!(EXTRA ".toList ++ (joinArgsV (r.outputArgs lvlStr) ++ [')']))).drop 19 := by
    rw [List.drop_left' (by decide)]
    have happ := List.prefix_append "%!(EXTRA ".toList (joinArgsV (r.outputArgs lvlStr) ++ [')'])
    exact List.IsPrefix.trans (show extraMarker <+: "%!(EXTRA ".toList by decide) happ
  have huniq : ∀ j, extraMarker <+:
      ("prefix \x7bbad message".toList ++
        '%' :: ("!(EXTRA ".toList ++ (joinArgsV (r.outputArgs lvlStr) ++ [')']))).drop j →
      j = 19 := by
    intro j hj
    have hq := occurrence_unique "!(EXTRA".toList hPfree hrest j hj
    simpa using hq
  have hlast : lastIndexOf extraMarker
      ("prefix \x7bbad message".toList ++
        '%' :: ("!(EXTRA ".toList ++ (joinArgsV (r.outputArgs lvlStr) ++ [')']))) =
      some 19 := by
    cases hL : lastIndexOf extraMarker
        ("prefix \x7bbad message".toList ++
          '%' :: ("!(EXTRA ".toList ++ (joinArgsV (r.outputArgs lvlStr) ++ [')']))) with
    | none => exact absurd hocc (lastIndexOf_none (by decide) hL 19)
    | some i =>
      have hi : i = 19 := huniq i (lastIndexOf_some (by decide) hL).1
      rw [hi]
  rw [Output_eq r _ lvlStr hls, hfull, hlast]
  exact congrArg some (List.take_left' (by decide))

/-- Record used for the C3 counterexample. -/
def c3rec : Info :=
  { Id := 7, Time := "2024".toList, Module := "MOD".toList, Level := 5, Line := 3,
    Filename := "a.go".toList, Message := "hi".toList, Category := "X".toList }

/-- C3 (counterexample): the template `"prefix %{bad message"` does NOT
render to `"prefix "` — the `'{'` and the remainder survive as literal
text, so rendering yields `"prefix {bad message"`. -/
theorem unterminated_placeholder_counterexample :
    parseFormat defaults0 "prefix %\x7bbad message".toList =
      some ("prefix \x7bbad message".toList, defaults0.defTimeFmt) ∧
    c3rec.Output "prefix \x7bbad message".toList = some "prefix \x7bbad message".toList ∧
    ("prefix \x7bbad message".toList : GoStr) ≠ "prefix ".toList := by
  refine ⟨by decide, by decide, by decide⟩

/-- Record used for the C3 witness. -/
def c3wrec : Info :=
  { Id := 2, Time := "now".toList, Module := "DEFAULT".toList, Level := 3, Line := 8,
    Filename := "b.go".toList, Message := "ok".toList, Category := "Y".toList }

/-- C3 witness: the amended theorem applied at a concrete record. -/
theorem unterminated_placeholder_amended_witness :
    parseFormat defaults0 "prefix %\x7bbad message".toList =
      some ("prefix \x7bbad message".toList, defaults0.defTimeFmt) ∧
    c3wrec.Output "prefix \x7bbad message".toList = some "prefix \x7bbad message".toList :=
  unterminated_placeholder_amended c3wrec (by decide) (by decide) (by decide) (by decide)
    (by decide) (by decide) (by decide)

/-! ## C8 — a second `"%{"` before the first `"}"` -/

theorem goLen_cons (c : Char) (s : GoStr) : goLen (c :: s) = c.utf8Size + goLen s := by
  simp [goLen]

/-- C8 (amended): in a template of shape `"%{" ++ w ++ "%{message}"` with
`w` free of `'%'` and `'}'` (e.g. `"%{inv %{message}"`), the compiler emits
a literal escaped percent for the dangling `"%{"` and resumes scanning one
character later — at the `'{'` — so the `'{'` and `w` are copied through as
literal text (the brace DOES reach the output), and the following
well-formed placeholder compiles normally. -/
theorem premature_placeholder_amended (w : GoStr) (hp : '%' ∉ w) (hb : '}' ∉ w) :
    parseFormat defaults0 ("%\x7b".toList ++ w ++ "%\x7bmessage\x7d".toList) =
      some ("%%".toList ++ '{' :: (w ++ "%[7]s".toList), defaults0.defTimeFmt) := by
  have hT : "%\x7b".toList ++ w ++ "%\x7bmessage\x7d".toList =
      '%' :: '{' :: (w ++ "%\x7bmessage\x7d".toList) := rfl
  rw [hT]
  have hgB : goLen ("%\x7bmessage\x7d".toList : GoStr) = 10 := by decide
  have hG : ¬ goLen ('%' :: '{' :: (w ++ "%\x7bmessage\x7d".toList)) < 10 := by
    rw [goLen_cons, goLen_cons, goLen_append, hgB]
    omega
  have hG2 : goLen ('%' :: '{' :: (w ++ "%\x7bmessage\x7d".toList)) > 2 := by
    rw [goLen_cons, goLen_cons, goLen_append, hgB]
    have := Char.utf8Size_pos '%'
    have := Char.utf8Size_pos '{'
    omega
  have hlen : ('%' :: '{' :: (w ++ "%\x7bmessage\x7d".toList)).length + 1 = w.length + 12 + 1 := by
    simp [List.length_append]
  have hidx0 : indexOfChar '%' ('%' :: '{' :: (w ++ "%\x7bmessage\x7d".toList)) = some 0 := by
    simp [indexOfChar]
  have hJ : indexOfChar '}' ('%' :: '{' :: (w ++ "%\x7bmessage\x7d".toList)) =
      some (w.length + 11) := by
    have hnotin : '}' ∉ ('%' :: '{' :: w) := by
      simp only [List.mem_cons]
      rintro (h | h | h)
      · exact absurd h (by decide)
      · exact absurd h (by decide)
      · exact hb h
    have hstep := indexOfChar_append "%\x7bmessage\x7d".toList hnotin
    simp only [List.cons_append] at hstep
    rw [hstep]
    rw [show indexOfChar '}' ("%\x7bmessage\x7d".toList : GoStr) = some 9 from by decide]
    simp only [Option.map_some', Option.some.injEq, List.length_cons]
  have hS : indexOfSub "%\x7b".toList ('{' :: (w ++ "%\x7bmessage\x7d".toList)) =
      some (w.length + 1) := by
    have hnotin : '%' ∉ ('{' :: w) := by
      simp only [List.mem_cons]
      rintro (h | h)
      · exact absurd h (by decide)
      · exact hp h
    have happ := indexOfSub_percent_append ['{'] "%\x7bmessage\x7d".toList hnotin
    simp only [List.cons_append] at happ
    show indexOfSub ('%' :: ['{']) ('{' :: (w ++ "%\x7bmessage\x7d".toList)) = some (w.length + 1)
    rw [happ]
    rw [show indexOfSub ('%' :: ['{']) ("%\x7bmessage\x7d".toList : GoStr) = some 0 from by decide]
    simp only [Option.map_some', Option.some.injEq, List.length_cons]
  unfold parseFormat
  rw [if_neg hG, hlen, hidx0]
  rw [parseLoop]
  dsimp only
  simp only [List.take_zero, List.drop_zero, List.nil_append, List.drop_succ_cons,
    List.append_nil]
  rw [if_pos hG2]
  rw [if_pos (show ('%' :: '{' :: (w ++ "%\x7bmessage\x7d".toList)).getD 1 ' ' = '{' from rfl)]
  rw [hJ, hS]
  dsimp only
  rw [if_pos (show w.length + 1 < w.length + 11 by omega)]
  rw [show w.length + 12 = w.length + 11 + 1 from rfl]
  rw [parseLoop]
  dsimp only
  simp only [List.take_succ_cons, List.take_left, List.drop_succ_cons, List.drop_zero,
    List.drop_left]
  rw [if_pos (show goLen ("%\x7bmessage\x7d".toList : GoStr) > 2 by decide)]
  rw [if_pos (show ("%\x7bmessage\x7d".toList : GoStr).getD 1 ' ' = '{' from rfl)]
  rw [show indexOfChar '}' ("%\x7bmessage\x7d".toList : GoStr) = some 9 from by decide]
  rw [show indexOfSub "%\x7b".toList (("%\x7bmessage\x7d".toList : GoStr).drop 1) = none from by decide]
  dsimp only
  rw [show ph2verb (("%\x7bmessage\x7d".toList : GoStr).take (9 + 1)) = ("%[7]s".toList, []) from by decide]
  rw [if_neg (show ¬ (("%[7]s".toList : GoStr) = "%[2]s".toList ∧ ([] : GoStr) ≠ []) by decide)]
  rw [show (("%\x7bmessage\x7d".toList : GoStr).drop (9 + 1)) = [] from by decide]
  rw [show indexOfChar '%' ([] : GoStr) = none from rfl]
  rw [parseLoop]
  simp [List.append_assoc]

/-- C8 (counterexample): on `"%{inv %{message}"` the compiler yields
`"%%{inv %[7]s"` — the `'{'` of the dangling `"%{"` IS copied to the
output — not the `"%%inv %[7]s"` the claim's "brace consumed, contributing
nothing" would give. -/
theorem premature_placeholder_counterexample :
    parseFormat defaults0 "%\x7binv %\x7bmessage\x7d".toList =
      some ("%%\x7binv %[7]s".toList, defaults0.defTimeFmt) ∧
    ("%%\x7binv %[7]s".toList : GoStr) ≠ "%%inv %[7]s".toList := by
  refine ⟨by decide, by decide⟩

/-- C8 witness: the amended theorem at `w = "inv "`. -/
theorem premature_placeholder_amended_witness :
    parseFormat defaults0 ("%\x7b".toList ++ "inv ".toList ++ "%\x7bmessage\x7d".toList) =
      some ("%%".toList ++ '{' :: ("inv ".toList ++ "%[7]s".toList), defaults0.defTimeFmt) :=
  premature_placeholder_amended "inv ".toList (by decide) (by decide)

/-! ## C4 — golden output of the default template -/

/-- The record of the default-template golden test; module and category are
arbitrary since the default template references neither. -/
def goldenRecord (module category : GoStr) : Info :=
  { Id := 1, Time := "2024-01-01 00:00:00".toList, Module := module, Level := 3, Line := 42,
    Filename := "main.go".toList, Message := "hello".toList, Category := category }

/-- C4: rendering the built-in default positional template `defFmt` with
id 1, the fixed time, `main.go:42`, Warning and message `"hello"` yields
exactly `#1 2024-01-01 00:00:00 main.go:42 ▶ WAR hello`, whatever the
module and category are. -/
theorem default_template_golden_output (module category : GoStr) :
    (goldenRecord module category).Output defaults0.defFmt =
      some "#1 2024-01-01 00:00:00 main.go:42 ▶ WAR hello".toList := by
  have hargs : Info.outputArgs (goldenRecord module category) "WARNING".toList =
      [GoVal.u64 1, GoVal.str "2024-01-01 00:00:00".toList, GoVal.str module,
       GoVal.str "main.go".toList, GoVal.int 42, GoVal.str "WARNING".toList,
       GoVal.str "hello".toList, GoVal.str category] := rfl
  have hspr : goSprintf defaults0.defFmt
      [GoVal.u64 1, GoVal.str "2024-01-01 00:00:00".toList, GoVal.str module,
       GoVal.str "main.go".toList, GoVal.int 42, GoVal.str "WARNING".toList,
       GoVal.str "hello".toList, GoVal.str category] =
      "#1 2024-01-01 00:00:00 main.go:42 ▶ WAR hello".toList := rfl
  have hmsg : fullMsg (goldenRecord module category) defaults0.defFmt "WARNING".toList =
      "#1 2024-01-01 00:00:00 main.go:42 ▶ WAR hello".toList := by
    unfold fullMsg
    rw [hargs, hspr]
  rw [Output_eq (goldenRecord module category) defaults0.defFmt "WARNING".toList rfl, hmsg]
  rw [show lastIndexOf extraMarker
      "#1 2024-01-01 00:00:00 main.go:42 ▶ WAR hello".toList = none from by decide]

/-! ## C1 — the Worker severity gate -/

/-- C1: `Worker.Log` writes to the sink iff the configured minimum level
admits the incoming severity (`level ≤ w.level`); a filtered call returns
`(0, nil)` and touches nothing; a Debug worker admits everything and a
Critical worker only Critical. -/
theorem worker_log_severity_gate (w : Worker) (s : Int) (info : Info)
    (hs1 : 1 ≤ s) (hs6 : s ≤ 6) (hw1 : 1 ≤ w.level) (hw6 : w.level ≤ 6)
    (hi1 : 1 ≤ info.Level) (hi6 : info.Level ≤ 6) :
    ∃ out, w.log s info = some out ∧
      (out.written.isSome ↔ s ≤ w.level) ∧
      (w.level < s → out = ⟨0, none, none⟩) ∧
      (w.level = 6 → out.written.isSome) ∧
      (w.level = 1 → (out.written.isSome ↔ s = 1)) := by
  by_cases hlt : w.level < s
  · refine ⟨⟨0, none, none⟩, ?_, ?_, ?_, ?_, ?_⟩
    · simp [Worker.log, hlt]
    · simp only [Option.isSome_none, Bool.false_eq_true, false_iff]
      omega
    · intro _; rfl
    · intro h6; omega
    · intro h1
      simp only [Option.isSome_none, Bool.false_eq_true, false_iff]
      omega
  · have hle : s ≤ w.level := Int.not_lt.mp hlt
    obtain ⟨lvlStr, hls, _⟩ := logLevelString_valid hi1 hi6
    have hex : ∃ o, info.Output w.format = some o := by
      unfold Info.Output
      rw [hls]
      exact ⟨_, rfl⟩
    obtain ⟨o, ho⟩ := hex
    have hlog : ∃ written, w.log s info = some ⟨goLen written, some written, w.sinkErr⟩ := by
      by_cases hc : w.Color ≠ 0
      · refine ⟨colors s ++ o ++ "\x1b[0m".toList, ?_⟩
        unfold Worker.log
        rw [if_neg (by omega), ho]
        dsimp only
        rw [if_pos hc]
      · refine ⟨o, ?_⟩
        unfold Worker.log
        rw [if_neg (by omega), ho]
        dsimp only
        rw [if_neg hc]
    obtain ⟨written, hwr⟩ := hlog
    refine ⟨⟨goLen written, some written, w.sinkErr⟩, hwr, ?_, ?_, ?_, ?_⟩
    · simp only [Option.isSome_some, true_iff]
      exact hle
    · intro hcon; omega
    · intro _
      simp
    · intro h1
      simp only [Option.isSome_some, true_iff]
      omega

/-- Worker and record for the C1 witness. -/
def c1worker : Worker :=
  { Color := 1, format := defaults0.defFmt, timeFormat := defaults0.defTimeFmt,
    level := 5, lock := 0, sink := stderrSink, sinkErr := none }

/-- Record for the C1 witness. -/
def c1rec : Info :=
  { Id := 3, Time := "2024-01-01 00:00:00".toList, Module := "DEFAULT".toList, Level := 3,
    Line := 9, Filename := "w.go".toList, Message := "msg".toList, Category := "c".toList }

/-- C1 witness: the gate theorem at an Info-level worker and a Warning
record. -/
theorem worker_log_severity_gate_witness :
    ∃ out, c1worker.log 3 c1rec = some out ∧
      (out.written.isSome ↔ (3 : Int) ≤ c1worker.level) ∧
      (c1worker.level < 3 → out = ⟨0, none, none⟩) ∧
      (c1worker.level = 6 → out.written.isSome) ∧
      (c1worker.level = 1 → (out.written.isSome ↔ (3 : Int) = 1)) :=
  worker_log_severity_gate c1worker 3 c1rec (by decide) (by decide) (by decide) (by decide)
    (by decide) (by decide)

/-! ## C10 — totality of `logLevelString` on 1..6 -/

/-- The 3-letter abbreviations of the six level names. -/
def levelAbbrevs : List GoStr :=
  ["CRI".toList, "ERR".toList, "WAR".toList, "NOT".toList, "INF".toList, "DEB".toList]

/-- C10: for a severity in 1..6 `logLevelString` is total, returns the
corresponding entry of the 6-name array, and its 3-character truncation is
the corresponding abbreviation; any severity outside 1..6 hits the
out-of-range array index (modelled `none`, a panic in Go). -/
theorem logLevelString_total_on_valid (lvl : Int) :
    (1 ≤ lvl → lvl ≤ 6 →
      ∃ s, logLevelString lvl = some s ∧
        logLevels.get? (lvl - 1).toNat = some s ∧
        levelAbbrevs.get? (lvl - 1).toNat = some (s.take 3)) ∧
    (lvl < 1 ∨ 6 < lvl → logLevelString lvl = none) := by
  constructor
  · intro h1 h6
    interval_cases lvl <;> exact ⟨_, rfl, by decide, by decide⟩
  · rintro (h | h)
    · unfold logLevelString
      rw [if_pos h]
    · unfold logLevelString
      rw [if_neg (by omega)]
      rw [List.get?_eq_none.mpr]
      have h6 : (6 : Nat) ≤ (lvl - 1).toNat := by omega
      simpa [logLevels] using h6

/-- C10 witness: the theorem at Warning (3). -/
theorem logLevelString_total_on_valid_witness :
    ∃ s, logLevelString 3 = some s ∧
      logLevels.get? ((3 : Int) - 1).toNat = some s ∧
      levelAbbrevs.get? ((3 : Int) - 1).toNat = some (s.take 3) :=
  (logLevelString_total_on_valid 3).1 (by decide) (by decide)

/-! ## C5 — `New` resolves variadic arguments by type, last one wins -/

/-- The `string` payload of an argument, if any. -/
def argStr : GoArg → Option GoStr
  | .str s => some s
  | _ => none

/-- The `int` payload of an argument, if any. -/
def argInt : GoArg → Option Int
  | .int n => some n
  | _ => none

/-- The `io.Writer` payload of an argument, if any. -/
def argWriter : GoArg → Option Nat
  | .writer w => some w
  | _ => none

/-- The `LogLevel` payload of an argument, if any. -/
def argLevel : GoArg → Option Int
  | .level l => some l
  | _ => none

theorem getLast?_cons_isSome {α : Type} (a : α) (l : List α) :
    ((a :: l).getLast?).isSome = true := by
  induction l generalizing a with
  | nil => rfl
  | cons b m ih =>
    rw [List.getLast?_cons_cons]
    exact ih b

theorem getLastD_cons {α : Type} (a d : α) (l : List α) :
    ((a :: l).getLast?).getD d = (l.getLast?).getD a := by
  cases l with
  | nil => rfl
  | cons b m =>
    rw [List.getLast?_cons_cons]
    obtain ⟨c, hc⟩ := Option.isSome_iff_exists.mp (getLast?_cons_isSome b m)
    simp [hc]

/-- `New`'s loop, from any starting state: each recognised payload
overwrites its variable (so the LAST occurrence of each type wins), and any
`unknown` argument aborts with a panic. -/
theorem foldNew_char (args : List GoArg) : ∀ c0 : NewCfg,
    List.foldlM newStep c0 args =
      if GoArg.unknown ∈ args then none
      else some { module := ((args.filterMap argStr).getLast?).getD c0.module,
                  color := ((args.filterMap argInt).getLast?).getD c0.color,
                  out := ((args.filterMap argWriter).getLast?).getD c0.out,
                  level := ((args.filterMap argLevel).getLast?).getD c0.level } := by
  induction args with
  | nil =>
    intro c0
    simp [List.filterMap_nil]
  | cons a rest ih =>
    intro c0
    cases a with
    | str s =>
      have hstep : List.foldlM newStep c0 (GoArg.str s :: rest) =
          List.foldlM newStep { c0 with module := s } rest := by
        rw [List.foldlM_cons]
        rfl
      rw [hstep, ih { c0 with module := s }]
      by_cases hu : GoArg.unknown ∈ rest
      · rw [if_pos hu, if_pos (List.mem_cons_of_mem _ hu)]
      · rw [if_neg hu, if_neg (by simp [List.mem_cons, hu])]
        simp only [List.filterMap_cons, argStr, argInt, argWriter, argLevel, getLastD_cons]
    | int n =>
      have hstep : List.foldlM newStep c0 (GoArg.int n :: rest) =
          List.foldlM newStep { c0 with color := n } rest := by
        rw [List.foldlM_cons]
        rfl
      rw [hstep, ih { c0 with color := n }]
      by_cases hu : GoArg.unknown ∈ rest
      · rw [if_pos hu, if_pos (List.mem_cons_of_mem _ hu)]
      · rw [if_neg hu, if_neg (by simp [List.mem_cons, hu])]
        simp only [List.filterMap_cons, argStr, argInt, argWriter, argLevel, getLastD_cons]
    | writer wr =>
      have hstep : List.foldlM newStep c0 (GoArg.writer wr :: rest) =
          List.foldlM newStep { c0 with out := wr } rest := by
        rw [List.foldlM_cons]
        rfl
      rw [hstep, ih { c0 with out := wr }]
      by_cases hu : GoArg.unknown ∈ rest
      · rw [if_pos hu, if_pos (List.mem_cons_of_mem _ hu)]
      · rw [if_neg hu, if_neg (by simp [List.mem_cons, hu])]
        simp only [List.filterMap_cons, argStr, argInt, argWriter, argLevel, getLastD_cons]
    | level lv =>
      have hstep : List.foldlM newStep c0 (GoArg.level lv :: rest) =
          List.foldlM newStep { c0 with level := lv } rest := by
        rw [List.foldlM_cons]
        rfl
      rw [hstep, ih { c0 with level := lv }]
      by_cases hu : GoArg.unknown ∈ rest
      · rw [if_pos hu, if_pos (List.mem_cons_of_mem _ hu)]
      · rw [if_neg hu, if_neg (by simp [List.mem_cons, hu])]
        simp only [List.filterMap_cons, argStr, argInt, argWriter, argLevel, getLastD_cons]
    | unknown =>
      have hstep : List.foldlM newStep c0 (GoArg.unknown :: rest) = none := by
        rw [List.foldlM_cons]
        rfl
      rw [hstep, if_pos (List.mem_cons_self _ _)]

/-- C5 (amended): `New` resolves its variadic arguments by dynamic type —
string = module, int = color, writer = sink, LogLevel = severity — the
LAST occurrence of each accepted type winning (each assignment overwrites
the previous); absent types keep the defaults
`("DEFAULT", 1, stderr, Info)`, and any unrecognised argument panics. -/
theorem new_resolution_last_occurrence (args : List GoArg) :
    resolveNewArgs args =
      if GoArg.unknown ∈ args then none
      else some { module := ((args.filterMap argStr).getLast?).getD "DEFAULT".toList,
                  color := ((args.filterMap argInt).getLast?).getD 1,
                  out := ((args.filterMap argWriter).getLast?).getD stderrSink,
                  level := ((args.filterMap argLevel).getLast?).getD 5 } :=
  foldNew_char args { module := "DEFAULT".toList, color := 1, out := stderrSink, level := 5 }

/-- C5 (counterexample): with the two string arguments `"a", "b"` the
module is `"b"` — the LAST string, not the first as the claim states. -/
theorem new_first_occurrence_counterexample :
    (resolveNewArgs [GoArg.str "a".toList, GoArg.str "b".toList]).map NewCfg.module =
      some "b".toList ∧
    ("b".toList : GoStr) ≠ "a".toList := by
  refine ⟨by decide, by decide⟩

/-! ## C6 — `New` leaves `posOverride` at 0, not at the `-1` sentinel -/

/-- The Logger `New(defaults)` builds (lock allocation number 0). -/
def c6logger : Logger :=
  { Module := "DEFAULT".toList
    worker :=
      { Color := 1, format := defaults0.defFmt, timeFormat := defaults0.defTimeFmt,
        level := 5, lock := 0, sink := stderrSink, sinkErr := none }
    posOverride := 0
    writeLock := 0 }

/-- C6 (code bug): `New`'s struct literal omits `posOverride`, so a fresh
Logger holds the Go zero value `0`, not the `-1` "no override" sentinel the
rest of the code uses; its first log call therefore consumes `0` as a
one-shot override (capturing the frame of `log_internal` itself) instead of
using the default depth 2, and only then resets the field to `-1`. -/
theorem fresh_logger_pos_override_bug :
    goNew defaults0 [] 0 = some c6logger ∧
    c6logger.posOverride = 0 ∧
    c6logger.posOverride ≠ -1 ∧
    logInternalPos c6logger defaultCallDepth = (0, setPosOverride c6logger (-1)) ∧
    (0 : Int) ≠ defaultCallDepth := by
  refine ⟨by decide, rfl, by decide, by decide, by decide⟩

/-! ## C7 — `parseFormat` and the process-wide default state -/

/-- The scanning loop never reads the time-format accumulator except to
thread it through: the positional template it produces (and whether it
terminates) are independent of it. -/
theorem parseLoop_fst_indep :
    ∀ (fuel : Nat) (idx : Option Nat) (format msgfmt t1 t2 : GoStr),
      (parseLoop fuel idx format msgfmt t1).map Prod.fst =
        (parseLoop fuel idx format msgfmt t2).map Prod.fst := by
  intro fuel
  induction fuel with
  | zero =>
    intro idx format msgfmt t1 t2
    cases idx <;> rfl
  | succ n ih =>
    intro idx format msgfmt t1 t2
    cases idx with
    | none => rfl
    | some i =>
      simp only [parseLoop]
      by_cases hg : goLen (format.drop i) > 2
      · rw [if_pos hg, if_pos hg]
        by_cases hbr : (format.drop i).getD 1 ' ' = '{'
        · rw [if_pos hbr, if_pos hbr]
          cases hj : indexOfChar '}' (format.drop i) with
          | none => exact ih _ _ _ _ _
          | some jdx =>
            cases hs : indexOfSub "%\x7b".toList ((format.drop i).drop 1) with
            | none => exact ih _ _ _ _ _
            | some idx2 =>
              dsimp only
              by_cases hlt : idx2 < jdx
              · rw [if_pos hlt, if_pos hlt]
                exact ih _ _ _ _ _
              · rw [if_neg hlt, if_neg hlt]
                exact ih _ _ _ _ _
        · rw [if_neg hbr, if_neg hbr]
          exact ih _ _ _ _ _
      · rw [if_neg hg, if_neg hg]
        exact ih _ _ _ _ _

/-- C7 (amended): for inputs of byte length at least 10 the POSITIONAL
template `parseFormat` returns is a pure function of the input string —
identical across any two global default states; only the returned time
layout (its fallback when the template carries no time argument) and the
short-input fallback depend on the mutable globals `defFmt`/`defTimeFmt`. -/
theorem parseFormat_msgfmt_state_independent (ds1 ds2 : GoDefaults) (f : GoStr)
    (h : 10 ≤ goLen f) :
    (parseFormat ds1 f).map Prod.fst = (parseFormat ds2 f).map Prod.fst := by
  unfold parseFormat
  rw [if_neg (by omega), if_neg (by omega)]
  exact parseLoop_fst_indep _ _ _ _ _ _

/-- C7 (counterexample): `parseFormat` is NOT a pure function of its input
alone — after `SetDefaultFormat("%{time:2006}")` has mutated the globals,
compiling the same short string `"short"` returns a different pair. -/
theorem parseFormat_global_state_counterexample :
    setDefaultFormat defaults0 "%\x7btime:2006\x7d".toList =
      some { defFmt := "%[2]s".toList, defTimeFmt := "2006".toList } ∧
    parseFormat defaults0 "short".toList ≠
      parseFormat { defFmt := "%[2]s".toList, defTimeFmt := "2006".toList } "short".toList := by
  refine ⟨by decide, by decide⟩

/-- C7 witness: the amended theorem at a concrete long template and two
different default states. -/
theorem parseFormat_msgfmt_state_independent_witness :
    (parseFormat defaults0 "%\x7bid\x7d %\x7blvl\x7d".toList).map Prod.fst =
      (parseFormat { defFmt := "X".toList, defTimeFmt := "Y".toList }
        "%\x7bid\x7d %\x7blvl\x7d".toList).map Prod.fst :=
  parseFormat_msgfmt_state_independent defaults0
    { defFmt := "X".toList, defTimeFmt := "Y".toList } "%\x7bid\x7d %\x7blvl\x7d".toList (by decide)

/-! ## C9 — the Logger/Worker lock-sharing invariant -/

/-- C9 (amended): `New` does establish `WriteLock == worker.lock` (both
are the one freshly allocated mutex), but `Update` builds the new Worker
around ANOTHER fresh mutex and leaves `WriteLock` untouched, so after an
`Update` the Logger's exported lock is no longer the lock its Worker
writes under. -/
theorem lock_sharing_amended :
    (∀ (ds : GoDefaults) (args : List GoArg) (n : Nat) (l : Logger),
        goNew ds args n = some l → l.writeLock = l.worker.lock) ∧
    (∀ (ds : GoDefaults) (l : Logger) (args : List GoArg) (m : Nat) (l' : Logger),
        goUpdate ds l args m = some l' →
          l'.writeLock = l.writeLock ∧ l'.worker.lock = m ∧
          (m ≠ l.writeLock → l'.writeLock ≠ l'.worker.lock)) := by
  constructor
  · intro ds args n l h
    unfold goNew at h
    cases hr : resolveNewArgs args with
    | none =>
      rw [hr] at h
      exact Option.noConfusion h
    | some c =>
      rw [hr] at h
      simp only [Option.map_some', Option.some.injEq] at h
      rw [← h]
  · intro ds l args m l' h
    unfold goUpdate at h
    cases hr : resolveUpdateArgs args with
    | none =>
      rw [hr] at h
      exact Option.noConfusion h
    | some c =>
      rw [hr] at h
      simp only [Option.map_some', Option.some.injEq] at h
      subst h
      refine ⟨rfl, rfl, ?_⟩
      intro hm hEq
      exact hm hEq.symm

/-- The fresh Logger for the C9 counterexample (lock id 0 from `New`). -/
def c9fresh : Logger :=
  { Module := "DEFAULT".toList
    worker :=
      { Color := 1, format := defaults0.defFmt, timeFormat := defaults0.defTimeFmt,
        level := 5, lock := 0, sink := stderrSink, sinkErr := none }
    posOverride := 0
    writeLock := 0 }

/-- The same Logger after `Update()` allocated lock id 1. -/
def c9updated : Logger :=
  { c9fresh with
    worker :=
      { Color := 1, format := defaults0.defFmt, timeFormat := defaults0.defTimeFmt,
        level := 5, lock := 1, sink := stderrSink, sinkErr := none } }

/-- C9 (counterexample): after `New` the identity holds, but one `Update`
(which allocates a fresh mutex, distinct from every existing one) leaves
`WriteLock` at the old lock while the Worker holds the new one. -/
theorem update_lock_sharing_counterexample :
    goNew defaults0 [] 0 = some c9fresh ∧
    goUpdate defaults0 c9fresh [] 1 = some c9updated ∧
    c9fresh.writeLock = c9fresh.worker.lock ∧
    c9updated.writeLock ≠ c9updated.worker.lock := by
  refine ⟨by decide, by decide, by decide, by decide⟩

/-- C9 witness: the amended theorem applied to the concrete fresh and
updated Loggers. -/
theorem lock_sharing_amended_witness :
    c9fresh.writeLock = c9fresh.worker.lock ∧
    (c9updated.writeLock = c9fresh.writeLock ∧ c9updated.worker.lock = 1 ∧
      (1 ≠ c9fresh.writeLock → c9updated.writeLock ≠ c9updated.worker.lock)) :=
  ⟨lock_sharing_amended.1 defaults0 [] 0 c9fresh (by decide),
   lock_sharing_amended.2 defaults0 c9fresh [] 1 c9updated (by decide)⟩

end GoLogger
